import Mathlib

/-!
Verification of the word-converter application (`word_converter.py`).

Strings are embedded as `List Char`; Python text functions used by the
program (`str.split('\n')`, `'\n'.join`, `str.lstrip`, `str.lower`,
`str.startswith`, `str.strip`, `str.removeprefix`, `str.removesuffix`,
`str.replace(old, new, 1)`) are embedded as executable Lean functions.
The Streamlit session state is embedded as an association list from key
names to values; external effects (pandoc, the Gemini service, the
filesystem listing/walk of the extracted media directory, mime detection
and base64 encoding) appear as explicit inputs of the pipeline.
-/

namespace WordConverter

/-- Python whitespace for `lstrip`/`strip` (ASCII subset). -/
def isPySpace (c : Char) : Bool :=
  c == ' ' || c == '\t' || c == '\n' || c == '\r' || c == '\x0b' || c == '\x0c'

/-- Python `str.lstrip()`. -/
def pyLstrip (s : List Char) : List Char := s.dropWhile isPySpace

/-- Python `str.rstrip()`. -/
def pyRstrip (s : List Char) : List Char := (s.reverse.dropWhile isPySpace).reverse

/-- Python `str.strip()`. -/
def pyStrip (s : List Char) : List Char := pyLstrip (pyRstrip s)

/-- Python `str.lower()` (per-character, ASCII-adequate for the keyword set). -/
def pyLower (s : List Char) : List Char := s.map Char.toLower

/-- `REMARK_KEYWORDS` from `word_converter.py`. -/
def REMARK_KEYWORDS : List (List Char) :=
  ["Remark:".data, "Note:".data, "Important:".data,
   "Remarque:".data, "N.B.:".data, "Attention:".data]

/-- The per-line trigger test of `preprocess_markdown`:
`any(line.lstrip().lower().startswith(kw.lower()) for kw in REMARK_KEYWORDS)`. -/
def lineMatches (line : List Char) : Bool :=
  REMARK_KEYWORDS.any (fun kw => (pyLower kw).isPrefixOf (pyLower (pyLstrip line)))

/-- The wrapper produced for a matched line:
`f'<div class="remark"><p>{line}</p></div>'`. -/
def wrapRemark (line : List Char) : List Char :=
  "<div class=\"remark\"><p>".data ++ line ++ "</p></div>".data

/-- One element of the list comprehension in `preprocess_markdown`. -/
def processLine (line : List Char) : List Char :=
  if lineMatches line then wrapRemark line else line

/-- Python `str.split('\n')`. -/
def splitNl : List Char → List (List Char)
  | [] => [[]]
  | c :: rest =>
    if c = '\n' then [] :: splitNl rest
    else
      match splitNl rest with
      | [] => [[c]]
      | h :: t => (c :: h) :: t

/-- Python `'\n'.join(...)`. -/
def joinNl : List (List Char) → List Char
  | [] => []
  | [l] => l
  | l :: ls => l ++ '\n' :: joinNl ls

/-- `preprocess_markdown` from `word_converter.py`. -/
def preprocess_markdown (markdown_text : List Char) : List Char :=
  joinNl ((splitNl markdown_text).map processLine)

theorem splitNl_cons_nl (rest : List Char) :
    splitNl ('\n' :: rest) = [] :: splitNl rest := by
  simp [splitNl]

theorem splitNl_cons_other (c : Char) (rest : List Char) (h : c ≠ '\n') :
    splitNl (c :: rest) =
      match splitNl rest with
      | [] => [[c]]
      | hd :: t => (c :: hd) :: t := by
  simp [splitNl, h]

theorem splitNl_ne_nil (s : List Char) : splitNl s ≠ [] := by
  cases s with
  | nil => simp [splitNl]
  | cons c rest =>
    by_cases h : c = '\n'
    · subst h; rw [splitNl_cons_nl]; simp
    · rw [splitNl_cons_other c rest h]
      cases splitNl rest <;> simp

theorem splitNl_dest (rest : List Char) : ∃ hd tl, splitNl rest = hd :: tl := by
  cases hr : splitNl rest with
  | nil => exact absurd hr (splitNl_ne_nil rest)
  | cons hd tl => exact ⟨hd, tl, rfl⟩

theorem joinNl_cons_cons (l h : List Char) (t : List (List Char)) :
    joinNl (l :: h :: t) = l ++ '\n' :: joinNl (h :: t) := rfl

theorem joinNl_splitNl (s : List Char) : joinNl (splitNl s) = s := by
  induction s with
  | nil => rfl
  | cons c rest ih =>
    obtain ⟨hd, tl, heq⟩ := splitNl_dest rest
    by_cases h : c = '\n'
    · subst h
      rw [splitNl_cons_nl, heq, joinNl_cons_cons]
      rw [heq] at ih
      simp [ih]
    · rw [splitNl_cons_other c rest h, heq]
      rw [heq] at ih
      cases tl with
      | nil =>
        show c :: hd = c :: rest
        simp only [joinNl] at ih
        rw [ih]
      | cons h2 t2 =>
        show (c :: hd) ++ '\n' :: joinNl (h2 :: t2) = c :: rest
        rw [joinNl_cons_cons] at ih
        rw [List.cons_append, ih]

theorem mem_splitNl_no_nl (s : List Char) (l : List Char) (hl : l ∈ splitNl s) :
    '\n' ∉ l := by
  induction s generalizing l with
  | nil =>
    simp only [splitNl, List.mem_singleton] at hl
    subst hl; simp
  | cons c rest ih =>
    by_cases h : c = '\n'
    · subst h
      rw [splitNl_cons_nl] at hl
      rcases List.mem_cons.mp hl with h1 | h1
      · subst h1; simp
      · exact ih l h1
    · obtain ⟨hd, tl, heq⟩ := splitNl_dest rest
      rw [splitNl_cons_other c rest h, heq] at hl
      have hl' : l ∈ (c :: hd) :: tl := hl
      rcases List.mem_cons.mp hl' with h1 | h1
      · subst h1
        intro hmem
        rcases List.mem_cons.mp hmem with h2 | h2
        · exact h h2.symm
        · exact ih hd (heq ▸ List.mem_cons_self _ _) h2
      · exact ih l (heq ▸ List.mem_cons_of_mem _ h1)

theorem splitNl_no_nl (l : List Char) (h : '\n' ∉ l) : splitNl l = [l] := by
  induction l with
  | nil => rfl
  | cons c rest ih =>
    have hc : c ≠ '\n' := fun hc => h (hc ▸ List.mem_cons_self c rest)
    have hr : '\n' ∉ rest := fun hm => h (List.mem_cons_of_mem c hm)
    rw [splitNl_cons_other c rest hc, ih hr]

theorem splitNl_append_nl (l r : List Char) (h : '\n' ∉ l) :
    splitNl (l ++ '\n' :: r) = l :: splitNl r := by
  induction l with
  | nil => simp [splitNl]
  | cons c rest ih =>
    have hc : c ≠ '\n' := fun hc => h (hc ▸ List.mem_cons_self c rest)
    have hr : '\n' ∉ rest := fun hm => h (List.mem_cons_of_mem c hm)
    rw [List.cons_append, splitNl_cons_other c _ hc, ih hr]

theorem splitNl_joinNl (ls : List (List Char)) (hne : ls ≠ [])
    (h : ∀ l ∈ ls, '\n' ∉ l) : splitNl (joinNl ls) = ls := by
  induction ls with
  | nil => exact absurd rfl hne
  | cons l rest ih =>
    cases rest with
    | nil =>
      simp only [joinNl]
      exact splitNl_no_nl l (h l (List.mem_cons_self _ _))
    | cons h2 t2 =>
      rw [joinNl_cons_cons]
      rw [splitNl_append_nl _ _ (h l (List.mem_cons_self _ _))]
      rw [ih (by simp) (fun x hx => h x (List.mem_cons_of_mem _ hx))]

theorem no_nl_wrapRemark (l : List Char) (h : '\n' ∉ l) : '\n' ∉ wrapRemark l := by
  intro hm
  rcases List.mem_append.mp hm with h1 | h1
  · rcases List.mem_append.mp h1 with h2 | h2
    · exact absurd h2 (by decide)
    · exact h h2
  · exact absurd h1 (by decide)

theorem no_nl_processLine (l : List Char) (h : '\n' ∉ l) : '\n' ∉ processLine l := by
  unfold processLine
  by_cases hm : lineMatches l = true
  · simp only [hm, if_true]
    exact no_nl_wrapRemark l h
  · simp only [hm, if_false]
    exact h

theorem splitNl_preprocess (s : List Char) :
    splitNl (preprocess_markdown s) = (splitNl s).map processLine := by
  unfold preprocess_markdown
  apply splitNl_joinNl
  · simp [splitNl_ne_nil s]
  · intro l hl
    obtain ⟨l0, hl0, rfl⟩ := List.mem_map.mp hl
    exact no_nl_processLine l0 (mem_splitNl_no_nl s l0 hl0)

theorem wrapRemark_length (l : List Char) : (wrapRemark l).length = l.length + 33 := by
  show ("<div class=\"remark\"><p>".data ++ l ++ "</p></div>".data).length = l.length + 33
  rw [List.length_append, List.length_append]
  have h1 : "<div class=\"remark\"><p>".data.length = 23 := rfl
  have h2 : "</p></div>".data.length = 10 := rfl
  rw [h1, h2]
  omega

theorem wrapRemark_ne (l : List Char) : wrapRemark l ≠ l := by
  intro he
  have := congrArg List.length he
  rw [wrapRemark_length] at this
  omega

theorem lineMatches_wrap (l : List Char) : lineMatches (wrapRemark l) = false := rfl

theorem processLine_idem (l : List Char) : processLine (processLine l) = processLine l := by
  by_cases h : lineMatches l = true
  · simp [processLine, h, lineMatches_wrap]
  · simp [processLine, h]

/-- C1: `preprocess_markdown` preserves line count and line order; a line is
altered iff its leading-whitespace-stripped, case-folded prefix matches one of
the six fixed keywords; an altered line is replaced by exactly
`<div class="remark"><p>` + the original line + `</p></div>`; the line
`"  note: see appendix"` becomes its wrapped form while `"Some other text"`
is unchanged. -/
theorem preprocess_markdown_line_behavior (s : List Char) :
    splitNl (preprocess_markdown s) = (splitNl s).map processLine
    ∧ (splitNl (preprocess_markdown s)).length = (splitNl s).length
    ∧ (∀ l, processLine l ≠ l ↔ lineMatches l = true)
    ∧ (∀ l, lineMatches l = true → processLine l = wrapRemark l)
    ∧ preprocess_markdown "  note: see appendix".data
        = "<div class=\"remark\"><p>  note: see appendix</p></div>".data
    ∧ preprocess_markdown "Some other text".data = "Some other text".data := by
  refine ⟨splitNl_preprocess s, ?_, ?_, ?_, rfl, rfl⟩
  · rw [splitNl_preprocess s, List.length_map]
  · intro l
    constructor
    · intro hne
      by_contra hm
      exact hne (by simp [processLine, hm])
    · intro hm
      rw [show processLine l = wrapRemark l by simp [processLine, hm]]
      exact wrapRemark_ne l
  · intro l hm
    simp [processLine, hm]

/-- C7: the Remark Annotator is idempotent on its own output: a wrapped line
begins with `<div class="remark">`, so its stripped, case-folded prefix no
longer matches any keyword and a second pass leaves it unchanged. -/
theorem preprocess_markdown_idempotent (s : List Char) :
    preprocess_markdown (preprocess_markdown s) = preprocess_markdown s := by
  show joinNl ((splitNl (preprocess_markdown s)).map processLine) = preprocess_markdown s
  rw [splitNl_preprocess, List.map_map]
  have hcomp : (splitNl s).map (processLine ∘ processLine) = (splitNl s).map processLine :=
    List.map_congr_left (fun a _ => processLine_idem a)
  rw [hcomp]
  rfl

/-- C8: on any input none of whose lines has a keyword-matching stripped,
case-folded prefix (including the empty string), `preprocess_markdown` is the
identity; in particular splitting on newline and rejoining is the identity. -/
theorem preprocess_markdown_identity_on_plain (s : List Char)
    (h : ∀ l ∈ splitNl s, lineMatches l = false) :
    preprocess_markdown s = s ∧ joinNl (splitNl s) = s := by
  constructor
  · show joinNl ((splitNl s).map processLine) = s
    have hmap : (splitNl s).map processLine = (splitNl s).map id :=
      List.map_congr_left (fun a ha => by simp [processLine, h a ha])
    rw [hmap, List.map_id, joinNl_splitNl]
  · exact joinNl_splitNl s

/-- Witness for C8 at two concrete inputs (a keyword-free text and the empty
string). -/
theorem preprocess_markdown_identity_on_plain_witness :
    preprocess_markdown "Some other text\n\nmore".data = "Some other text\n\nmore".data
    ∧ preprocess_markdown [] = [] :=
  ⟨(preprocess_markdown_identity_on_plain "Some other text\n\nmore".data (by decide)).1,
   (preprocess_markdown_identity_on_plain [] (by decide)).1⟩

/-- Python `str.removeprefix(p)`. -/
def pyRemovePre (p s : List Char) : List Char :=
  if p.isPrefixOf s then s.drop p.length else s

/-- Python `str.removesuffix(p)`. -/
def pyRemoveSuf (p s : List Char) : List Char :=
  if p.isSuffixOf s then s.take (s.length - p.length) else s

/-- The opening code-fence marker removed in `convert_to_html_with_gemini`. -/
def fenceOpen : List Char := "```html".data

/-- The closing code-fence marker removed in `convert_to_html_with_gemini`. -/
def fenceClose : List Char := "```".data

/-- The response post-processing of `convert_to_html_with_gemini`:
`response.text.strip().removeprefix("```html").removesuffix("```")`. -/
def geminiPost (resp : List Char) : List Char :=
  pyRemoveSuf fenceClose (pyRemovePre fenceOpen (pyStrip resp))

/-- `convert_to_html_with_gemini`: the external model call is an explicit
input `gemini` mapping the prompt content to a response or an error; on
success the response text is post-processed by `geminiPost`.  The api_key
only configures the client and does not affect the text transformation. -/
def convert_to_html_with_gemini (gemini : List Char → Except (List Char) (List Char))
    (api_key processed_markdown : List Char) : Except (List Char) (List Char) :=
  match gemini processed_markdown with
  | .error e => .error e
  | .ok resp => .ok (geminiPost resp)

/-- Does the string begin with a Python-whitespace character? -/
def beginsWithPySpace : List Char → Bool
  | [] => false
  | c :: _ => isPySpace c

/-- Does the string end with a Python-whitespace character? -/
def endsWithPySpace (s : List Char) : Bool := beginsWithPySpace s.reverse

theorem dropWhile_head_not (p : Char → Bool) (s : List Char) :
    ∀ c t, s.dropWhile p = c :: t → p c = false := by
  induction s with
  | nil => intro c t h; simp [List.dropWhile] at h
  | cons a rest ih =>
    intro c t h
    rw [List.dropWhile_cons] at h
    by_cases ha : p a = true
    · rw [if_pos ha] at h; exact ih c t h
    · rw [if_neg ha] at h
      injection h with h1 h2
      subst h1
      simpa using ha

theorem pyStrip_no_leading (s : List Char) : beginsWithPySpace (pyStrip s) = false := by
  unfold pyStrip pyLstrip
  cases h : (pyRstrip s).dropWhile isPySpace with
  | nil => rfl
  | cons c t =>
    simpa [beginsWithPySpace] using dropWhile_head_not isPySpace (pyRstrip s) c t h

theorem pyStrip_no_trailing (s : List Char) : endsWithPySpace (pyStrip s) = false := by
  unfold endsWithPySpace
  cases h : (pyStrip s).reverse with
  | nil => simp [beginsWithPySpace]
  | cons c t =>
    have hsuf : pyStrip s <:+ pyRstrip s := List.dropWhile_suffix isPySpace
    have hpre : (pyStrip s).reverse <+: (pyRstrip s).reverse := List.reverse_prefix.mpr hsuf
    rw [h] at hpre
    have hy : (pyRstrip s).reverse = s.reverse.dropWhile isPySpace := by
      unfold pyRstrip; rw [List.reverse_reverse]
    rw [hy] at hpre
    obtain ⟨u, hu⟩ := hpre
    have heq : s.reverse.dropWhile isPySpace = c :: (t ++ u) := by
      rw [← hu]; simp
    simpa [beginsWithPySpace] using dropWhile_head_not isPySpace s.reverse c (t ++ u) heq

theorem isPrefixOf_append_self (l t : List Char) : l.isPrefixOf (l ++ t) = true := by
  rw [List.isPrefixOf_iff_prefix]; exact List.prefix_append l t

theorem isSuffixOf_append_self (l t : List Char) : l.isSuffixOf (t ++ l) = true := by
  rw [List.isSuffixOf_iff_suffix]; exact List.suffix_append t l

theorem geminiPost_fenced (resp inner : List Char)
    (h : pyStrip resp = fenceOpen ++ inner ++ fenceClose) :
    geminiPost resp = inner := by
  unfold geminiPost pyRemovePre pyRemoveSuf
  rw [h, show fenceOpen ++ inner ++ fenceClose = fenceOpen ++ (inner ++ fenceClose) by
    simp [List.append_assoc]]
  rw [if_pos (isPrefixOf_append_self fenceOpen (inner ++ fenceClose)), List.drop_left]
  rw [if_pos (isSuffixOf_append_self fenceClose inner)]
  have hl : (inner ++ fenceClose).length - fenceClose.length = inner.length := by
    rw [List.length_append]; omega
  rw [hl, List.take_left]

theorem geminiPost_nofence (resp : List Char)
    (h1 : fenceOpen.isPrefixOf (pyStrip resp) = false)
    (h2 : fenceClose.isSuffixOf (pyStrip resp) = false) :
    geminiPost resp = pyStrip resp := by
  have h1n : ¬(fenceOpen.isPrefixOf (pyStrip resp) = true) := by
    simp only [h1]; exact Bool.false_ne_true
  have h2n : ¬(fenceClose.isSuffixOf (pyStrip resp) = true) := by
    simp only [h2]; exact Bool.false_ne_true
  unfold geminiPost pyRemovePre pyRemoveSuf
  rw [if_neg h1n, if_neg h2n]

/-- C3 counterexample: on the model response `"```html\nhi\n```"` the value
returned by the post-processing of `convert_to_html_with_gemini` is
`"\nhi\n"`, which both begins and ends with whitespace — refuting the claim
that the returned string never begins or ends with whitespace. -/
theorem convert_to_html_whitespace_counterexample :
    geminiPost "```html\nhi\n```".data = "\nhi\n".data
    ∧ beginsWithPySpace (geminiPost "```html\nhi\n```".data) = true
    ∧ endsWithPySpace (geminiPost "```html\nhi\n```".data) = true :=
  ⟨rfl, rfl, rfl⟩

/-- C3 (amended): the returned value equals the response first trimmed of
leading and trailing whitespace, then with a literal `"```html"` prefix and a
literal `"```"` suffix removed when present.  When the trimmed response has
no such fence markers the result equals the trimmed response and never begins
or ends with whitespace; when fence markers are removed the inner content is
returned verbatim, so it may begin or end with whitespace. -/
theorem convert_to_html_postprocessing (resp inner : List Char) :
    (fenceOpen.isPrefixOf (pyStrip resp) = false →
      fenceClose.isSuffixOf (pyStrip resp) = false →
      geminiPost resp = pyStrip resp
      ∧ beginsWithPySpace (geminiPost resp) = false
      ∧ endsWithPySpace (geminiPost resp) = false)
    ∧ (pyStrip resp = fenceOpen ++ inner ++ fenceClose → geminiPost resp = inner) := by
  constructor
  · intro h1 h2
    have he := geminiPost_nofence resp h1 h2
    exact ⟨he, by rw [he]; exact pyStrip_no_leading resp,
           by rw [he]; exact pyStrip_no_trailing resp⟩
  · exact geminiPost_fenced resp inner

/-- Witness for the amended C3: an unfenced response is trimmed, and a fenced
response yields its inner content verbatim. -/
theorem convert_to_html_postprocessing_witness :
    geminiPost "  <p>hi</p>  ".data = "<p>hi</p>".data
    ∧ geminiPost "```html ok```".data = " ok".data :=
  ⟨((convert_to_html_postprocessing "  <p>hi</p>  ".data []).1 (by decide) (by decide)).1,
   (convert_to_html_postprocessing "```html ok```".data " ok".data).2 (by decide)⟩

/-- A file of the extracted media directory as seen by `os.listdir` in
`create_html_preview`: its final filename and its raw byte content. -/
structure MediaFile where
  name : List Char
  bytes : List Nat
deriving DecidableEq, Repr

/-- Python `str.replace(tgt, repl, 1)`: replace only the first (leftmost)
occurrence of `tgt`. -/
def replaceFirst (tgt repl : List Char) : List Char → List Char
  | [] => if tgt.isPrefixOf [] then repl else []
  | c :: rest =>
    if tgt.isPrefixOf (c :: rest) then repl ++ (c :: rest).drop tgt.length
    else c :: replaceFirst tgt repl rest

/-- Whether `tgt` occurs as a contiguous substring. -/
def occursIn (tgt : List Char) : List Char → Bool
  | [] => tgt.isPrefixOf []
  | c :: rest => tgt.isPrefixOf (c :: rest) || occursIn tgt rest

/-- The relative reference `f"imgs/{filename}"` used by `create_html_preview`. -/
def imgRef (filename : List Char) : List Char := "imgs/".data ++ filename

/-- The inlined reference `f"data:{mime_type};base64,{content}"`. -/
def dataUri (mime b64content : List Char) : List Char :=
  "data:".data ++ mime ++ ";base64,".data ++ b64content

/-- `create_html_preview` from `word_converter.py`.  The filesystem is an
explicit input: `media` is `none` when `os.path.isdir(media_dir)` is false,
otherwise the `os.listdir` result with each file's bytes; `mime` embeds
`mimetypes.guess_type` (by file name) and `b64e` embeds
`base64.b64encode(...).decode("utf-8")`. -/
def create_html_preview (mime : List Char → Option (List Char))
    (b64e : List Nat → List Char) (html_content : List Char)
    (media : Option (List MediaFile)) : List Char :=
  match media with
  | none => html_content
  | some files =>
    files.foldl (fun preview_html f =>
      match mime f.name with
      | none => preview_html
      | some mime_type =>
        if "image".data.isPrefixOf mime_type then
          replaceFirst (imgRef f.name) (dataUri mime_type (b64e f.bytes)) preview_html
        else preview_html) html_content

theorem replaceFirst_nil (tgt repl : List Char) :
    replaceFirst tgt repl [] = if tgt.isPrefixOf [] then repl else [] := rfl

theorem replaceFirst_cons (tgt repl : List Char) (c : Char) (rest : List Char) :
    replaceFirst tgt repl (c :: rest) =
      if tgt.isPrefixOf (c :: rest) then repl ++ (c :: rest).drop tgt.length
      else c :: replaceFirst tgt repl rest := rfl

theorem occursIn_cons (tgt : List Char) (c : Char) (rest : List Char) :
    occursIn tgt (c :: rest) = (tgt.isPrefixOf (c :: rest) || occursIn tgt rest) := rfl

theorem replaceFirst_of_not_occurs (tgt repl s : List Char)
    (h : occursIn tgt s = false) : replaceFirst tgt repl s = s := by
  induction s with
  | nil =>
    have hn : tgt.isPrefixOf [] = false := h
    rw [replaceFirst_nil, if_neg (by simp only [hn]; exact Bool.false_ne_true)]
  | cons c rest ih =>
    rw [occursIn_cons, Bool.or_eq_false_iff] at h
    rw [replaceFirst_cons, if_neg (by simp only [h.1]; exact Bool.false_ne_true), ih h.2]

theorem replaceFirst_first_occurrence (tgt repl : List Char) (hne : tgt ≠ []) :
    ∀ pre post : List Char,
      (∀ k, k < pre.length → tgt.isPrefixOf ((pre ++ tgt ++ post).drop k) = false) →
      replaceFirst tgt repl (pre ++ tgt ++ post) = pre ++ repl ++ post := by
  intro pre
  induction pre with
  | nil =>
    intro post _
    simp only [List.nil_append]
    obtain ⟨c, ts, hct⟩ : ∃ c ts, tgt = c :: ts := by
      cases tgt with
      | nil => exact absurd rfl hne
      | cons c ts => exact ⟨c, ts, rfl⟩
    have hkey : tgt ++ post = c :: (ts ++ post) := by rw [hct]; rfl
    rw [hkey, replaceFirst_cons, ← hkey]
    rw [if_pos (isPrefixOf_append_self tgt post), List.drop_left]
  | cons c pre' ih =>
    intro post hp
    simp only [List.cons_append]
    have h0 : tgt.isPrefixOf (c :: (pre' ++ tgt ++ post)) = false := by
      have h := hp 0 (by simp)
      simpa using h
    rw [replaceFirst_cons, if_neg (by simp only [h0]; exact Bool.false_ne_true)]
    rw [ih post (fun k hk => by
      have h := hp (k + 1) (by simpa using Nat.succ_lt_succ hk)
      simpa using h)]

theorem create_html_preview_none (mime : List Char → Option (List Char))
    (b64e : List Nat → List Char) (h : List Char) :
    create_html_preview mime b64e h none = h := rfl

theorem create_html_preview_single (mime : List Char → Option (List Char))
    (b64e : List Nat → List Char) (h : List Char) (f : MediaFile) :
    create_html_preview mime b64e h (some [f]) =
      (match mime f.name with
       | none => h
       | some mime_type =>
         if "image".data.isPrefixOf mime_type then
           replaceFirst (imgRef f.name) (dataUri mime_type (b64e f.bytes)) h
         else h) := rfl

theorem imgRef_ne_nil (n : List Char) : imgRef n ≠ [] := by
  intro h
  have : ('i' :: ("mgs/".data ++ n)) = ([] : List Char) := h
  exact List.cons_ne_nil _ _ this

/-- C4: if the media directory does not exist the HTML is returned unchanged;
for an image-typed file whose reference `imgs/<filename>` appears twice only
the first occurrence is replaced by the `data:<mime>;base64,...` URI and the
second remains; a file whose reference does not occur causes no change, and a
non-image file causes no change. -/
theorem create_html_preview_first_occurrence
    (mime : List Char → Option (List Char)) (b64e : List Nat → List Char)
    (f g : MediaFile) (m : List Char) (pre mid post h2 h3 : List Char)
    (hm : mime f.name = some m)
    (him : "image".data.isPrefixOf m = true)
    (hp : ∀ k, k < pre.length →
      (imgRef f.name).isPrefixOf
        ((pre ++ imgRef f.name ++ (mid ++ imgRef f.name ++ post)).drop k) = false)
    (hocc : occursIn (imgRef f.name) h2 = false)
    (hg : mime g.name = none) :
    create_html_preview mime b64e
        (pre ++ imgRef f.name ++ (mid ++ imgRef f.name ++ post)) (some [f])
      = pre ++ dataUri m (b64e f.bytes) ++ (mid ++ imgRef f.name ++ post)
    ∧ create_html_preview mime b64e h3 none = h3
    ∧ create_html_preview mime b64e h2 (some [f]) = h2
    ∧ create_html_preview mime b64e h3 (some [g]) = h3 := by
  refine ⟨?_, rfl, ?_, ?_⟩
  · rw [create_html_preview_single, hm]
    show (if "image".data.isPrefixOf m then
        replaceFirst (imgRef f.name) (dataUri m (b64e f.bytes))
          (pre ++ imgRef f.name ++ (mid ++ imgRef f.name ++ post))
      else pre ++ imgRef f.name ++ (mid ++ imgRef f.name ++ post)) = _
    rw [if_pos him]
    exact replaceFirst_first_occurrence (imgRef f.name) (dataUri m (b64e f.bytes))
      (imgRef_ne_nil f.name) pre (mid ++ imgRef f.name ++ post) hp
  · rw [create_html_preview_single, hm]
    show (if "image".data.isPrefixOf m then
        replaceFirst (imgRef f.name) (dataUri m (b64e f.bytes)) h2 else h2) = h2
    rw [if_pos him]
    exact replaceFirst_of_not_occurs (imgRef f.name) (dataUri m (b64e f.bytes)) h2 hocc
  · rw [create_html_preview_single, hg]

/-- A concrete mime classifier for witnesses: only `a.png` is an image. -/
def wMime (n : List Char) : Option (List Char) :=
  if n = "a.png".data then some "image/png".data else none

/-- A concrete base64-encoder stand-in for witnesses. -/
def wB64 (bs : List Nat) : List Char :=
  match bs with
  | _ => "AQI=".data

/-- Witness for C4 at a concrete two-occurrence HTML, a concrete
no-occurrence HTML, and a concrete non-image file. -/
theorem create_html_preview_first_occurrence_witness :
    create_html_preview wMime wB64
        ("<img src=\"".data ++ imgRef "a.png".data
          ++ ("\"> <img src=\"".data ++ imgRef "a.png".data ++ "\">".data))
        (some [⟨"a.png".data, [1, 2]⟩])
      = "<img src=\"".data ++ dataUri "image/png".data "AQI=".data
          ++ ("\"> <img src=\"".data ++ imgRef "a.png".data ++ "\">".data)
    ∧ create_html_preview wMime wB64 "<h1>t</h1>".data none = "<h1>t</h1>".data
    ∧ create_html_preview wMime wB64 "<p>none</p>".data
        (some [⟨"a.png".data, [1, 2]⟩]) = "<p>none</p>".data
    ∧ create_html_preview wMime wB64 "<h1>t</h1>".data
        (some [⟨"notes.txt".data, [3]⟩]) = "<h1>t</h1>".data :=
  create_html_preview_first_occurrence wMime wB64
    ⟨"a.png".data, [1, 2]⟩ ⟨"notes.txt".data, [3]⟩ "image/png".data
    "<img src=\"".data "\"> <img src=\"".data "\">".data
    "<p>none</p>".data "<h1>t</h1>".data
    (by decide) (by decide) (by decide) (by decide) (by decide)

/-- A file found by the recursive `os.walk` of the media directory during
packaging: the intermediate subdirectory components below the media
directory, the final filename, and the byte content. -/
structure WalkEntry where
  relpath : List (List Char)
  name : List Char
  bytes : List Nat
deriving DecidableEq, Repr

/-- Content of one archive entry. -/
inductive ZipContent where
  | text : List Char → ZipContent
  | bin : List Nat → ZipContent
deriving DecidableEq, Repr

/-- The archive built in packaging step 5 of the run handler: `course.html`
first via `writestr`, then — when the media directory exists — every file of
the recursive walk under the arcname `os.path.join("imgs", file)`, which uses
only the file's basename. -/
def build_zip (html : List Char) (walk : Option (List WalkEntry)) :
    List (List Char × ZipContent) :=
  ("course.html".data, ZipContent.text html) ::
    (match walk with
     | none => []
     | some entries =>
       entries.map (fun e => ("imgs/".data ++ e.name, ZipContent.bin e.bytes)))

/-- The root part of Python `os.path.splitext` on a bare filename: split at
the last dot, except when every character before that dot is itself a dot. -/
def splitextRoot (name : List Char) : List Char :=
  match name.reverse.dropWhile (fun c => decide (c ≠ '.')) with
  | [] => name
  | _ :: revRoot =>
    if revRoot.reverse.any (fun c => decide (c ≠ '.')) then revRoot.reverse else name

/-- `f"{os.path.splitext(uploaded_file.name)[0]}_webpage.zip"`. -/
def download_filename (name : List Char) : List Char :=
  splitextRoot name ++ "_webpage.zip".data

/-- A value stored in the Streamlit session state. -/
inductive StVal where
  | flag : Bool → StVal
  | str : List Char → StVal
  | archive : List (List Char × ZipContent) → StVal
deriving DecidableEq, Repr

/-- The Streamlit session state: key/value entries. -/
abbrev SessionSt : Type := List (List Char × StVal)

/-- The four result keys iterated by `reset_state`. -/
def RESULT_KEYS : List (List Char) :=
  ["conversion_done".data, "preview_html".data, "zip_buffer".data,
   "download_filename".data]

/-- `key in st.session_state`. -/
def containsKey (st : SessionSt) (k : List Char) : Bool :=
  st.any (fun p => decide (p.1 = k))

/-- `del st.session_state[key]`: `none` models the KeyError raised when the
key is absent. -/
def delItem (st : SessionSt) (k : List Char) : Option SessionSt :=
  if containsKey st k then some (st.filter (fun p => !(decide (p.1 = k)))) else none

/-- `reset_state` from `word_converter.py`: for each result key in order,
delete it only after a membership check. -/
def reset_state (st : SessionSt) : Option SessionSt :=
  RESULT_KEYS.foldl (fun acc k =>
    match acc with
    | none => none
    | some s => if containsKey s k then delItem s k else some s) (some st)

/-- `st.session_state[k] = v` (dict assignment). -/
def setKey : SessionSt → List Char → StVal → SessionSt
  | [], k, v => [(k, v)]
  | p :: rest, k, v => if p.1 = k then (k, v) :: rest else p :: setKey rest k v

/-- `st.session_state.get(k)` / `st.session_state[k]` (dict lookup). -/
def lookupSt : SessionSt → List Char → Option StVal
  | [], _ => none
  | p :: rest, k => if p.1 = k then some p.2 else lookupSt rest k

/-- Is `k` one of the four result keys? -/
def isResultKey (k : List Char) : Bool :=
  RESULT_KEYS.any (fun r => decide (k = r))

/-- The observable effect of `reset_state`: all result-key entries removed,
everything else untouched. -/
def purgeResult (st : SessionSt) : SessionSt :=
  st.filter (fun p => !(isResultKey p.1))

theorem lookupSt_cons (p : List Char × StVal) (rest : SessionSt) (k : List Char) :
    lookupSt (p :: rest) k = if p.1 = k then some p.2 else lookupSt rest k := rfl

theorem reset_step_eq (s : SessionSt) (k : List Char) :
    (if containsKey s k then delItem s k else some s)
      = some (s.filter (fun p => !(decide (p.1 = k)))) := by
  by_cases h : containsKey s k = true
  · rw [if_pos h]
    unfold delItem
    rw [if_pos h]
  · have h' : containsKey s k = false := by simpa using h
    rw [if_neg (by simp [h'])]
    congr 1
    symm
    rw [List.filter_eq_self]
    intro a ha
    unfold containsKey at h'
    rw [List.any_eq_false] at h'
    simpa using h' a ha

theorem reset_fold (ks : List (List Char)) (st : SessionSt) :
    ks.foldl (fun acc k =>
      match acc with
      | none => none
      | some s => if containsKey s k then delItem s k else some s) (some st)
    = some (st.filter (fun p => !(ks.any (fun k => decide (p.1 = k))))) := by
  induction ks generalizing st with
  | nil =>
    simp only [List.foldl_nil, List.any_nil, Bool.not_false, Option.some.injEq]
    exact (List.filter_true st).symm
  | cons k ks ih =>
    rw [List.foldl_cons]
    have hstep : (match some st with
      | none => none
      | some s => if containsKey s k then delItem s k else some s)
        = some (st.filter (fun p => !(decide (p.1 = k)))) := reset_step_eq st k
    rw [hstep, ih, List.filter_filter]
    congr 1
    apply List.filter_congr
    intro a _
    cases h1 : decide (a.1 = k) <;> cases h2 : ks.any (fun k => decide (a.1 = k)) <;>
      simp [List.any_cons, h1, h2]

theorem reset_state_eq (st : SessionSt) : reset_state st = some (purgeResult st) := by
  unfold reset_state purgeResult isResultKey
  exact reset_fold RESULT_KEYS st

theorem lookupSt_purge_result_key (st : SessionSt) (k : List Char)
    (hk : isResultKey k = true) : lookupSt (purgeResult st) k = none := by
  induction st with
  | nil => rfl
  | cons p rest ih =>
    unfold purgeResult at ih ⊢
    rw [List.filter_cons]
    by_cases h : (!(isResultKey p.1)) = true
    · rw [if_pos h, lookupSt_cons]
      have hne : p.1 ≠ k := by
        intro he
        rw [he, hk] at h
        simp at h
      rw [if_neg hne]
      exact ih
    · rw [if_neg h]
      exact ih

theorem lookupSt_purge_other_key (st : SessionSt) (k : List Char)
    (hk : isResultKey k = false) : lookupSt (purgeResult st) k = lookupSt st k := by
  induction st with
  | nil => rfl
  | cons p rest ih =>
    unfold purgeResult at ih ⊢
    rw [List.filter_cons, lookupSt_cons p rest k]
    by_cases h : p.1 = k
    · have hkeep : (!(isResultKey p.1)) = true := by rw [h, hk]; rfl
      rw [if_pos hkeep, lookupSt_cons, if_pos h, if_pos h]
    · by_cases h2 : (!(isResultKey p.1)) = true
      · rw [if_pos h2, lookupSt_cons, if_neg h, ih, if_neg h]
      · rw [if_neg h2, ih, if_neg h]

theorem purgeResult_idem (st : SessionSt) :
    purgeResult (purgeResult st) = purgeResult st := by
  unfold purgeResult
  rw [List.filter_eq_self]
  intro a ha
  exact (List.mem_filter.mp ha).2

/-- C10: `reset_state` never raises (each delete is guarded by a membership
check, so it succeeds on every subset of present keys), afterwards none of
the four result keys is present, every other session-state entry is
unchanged, and the operation is idempotent. -/
theorem reset_state_total_frame (st : SessionSt) :
    reset_state st = some (purgeResult st)
    ∧ (∀ k, isResultKey k = true → lookupSt (purgeResult st) k = none)
    ∧ (∀ k, isResultKey k = false → lookupSt (purgeResult st) k = lookupSt st k)
    ∧ reset_state (purgeResult st) = some (purgeResult st) := by
  refine ⟨reset_state_eq st, fun k hk => lookupSt_purge_result_key st k hk,
    fun k hk => lookupSt_purge_other_key st k hk, ?_⟩
  rw [reset_state_eq, purgeResult_idem]

/-- A concrete session state for witnesses: one result key present, one
unrelated key present. -/
def wSt : SessionSt :=
  [("conversion_done".data, StVal.flag true), ("other".data, StVal.flag false)]

/-- Witness for C10 at a concrete partially-populated state. -/
theorem reset_state_total_frame_witness :
    reset_state wSt = some [("other".data, StVal.flag false)]
    ∧ lookupSt (purgeResult wSt) "conversion_done".data = none
    ∧ lookupSt (purgeResult wSt) "other".data = lookupSt wSt "other".data :=
  ⟨(reset_state_total_frame wSt).1.trans (by decide),
   (reset_state_total_frame wSt).2.1 "conversion_done".data (by decide),
   (reset_state_total_frame wSt).2.2.1 "other".data (by decide)⟩

/-- The two views of the extracted media directory used by the run handler:
`listing` is the `os.listdir` seen by `create_html_preview` (top-level
files), `walk` the recursive `os.walk` seen by the packaging loop. -/
structure MediaView where
  listing : List MediaFile
  walk : List WalkEntry

/-- The external world of one conversion run: the pandoc result, the media
directory it produced (`none` when `os.path.isdir` is false), the Gemini
service as a function of the prompt content, mime detection, and base64
encoding. -/
structure Env where
  pandoc : Except (List Char) (List Char)
  media : Option MediaView
  gemini : List Char → Except (List Char) (List Char)
  mime : List Char → Option (List Char)
  b64e : List Nat → List Char

/-- The Session Result stored on success (lines 160–163). -/
structure SessionResult where
  preview_html : List Char
  zip_entries : List (List Char × ZipContent)
  download_filename : List Char
deriving DecidableEq, Repr

/-- Steps 1–5 of the run handler's `try` block: extract, annotate, convert
via Gemini, build the preview, build the archive, derive the download
filename from the uploaded file's name. -/
def run_pipeline (env : Env) (gemini_api_key uploaded_name : List Char) :
    Except (List Char) SessionResult :=
  match env.pandoc with
  | Except.error e => Except.error e
  | Except.ok markdown_content =>
    match convert_to_html_with_gemini env.gemini gemini_api_key
        (preprocess_markdown markdown_content) with
    | Except.error e => Except.error e
    | Except.ok final_html_with_links =>
      Except.ok
        { preview_html := create_html_preview env.mime env.b64e final_html_with_links
            (Option.map (fun mv => mv.listing) env.media)
          zip_entries := build_zip final_html_with_links
            (Option.map (fun mv => mv.walk) env.media)
          download_filename := WordConverter.download_filename uploaded_name }

/-- Lines 160–163: store the four result fields in the session state. -/
def storeResult (st : SessionSt) (r : SessionResult) : SessionSt :=
  setKey (setKey (setKey (setKey st "conversion_done".data (StVal.flag true))
    "preview_html".data (StVal.str r.preview_html))
    "zip_buffer".data (StVal.archive r.zip_entries))
    "download_filename".data (StVal.str r.download_filename)

/-- User-visible outputs of the convert-button handler. -/
inductive Msg where
  | warnKey
  | warnFile
  | errorShown (e : List Char)
  | hintShown
  | complete
deriving DecidableEq, Repr

/-- The convert-button handler (lines 121–171): warn when the credential or
the file is missing (session state untouched); otherwise run the pipeline;
on success store the Session Result; on an exception show the error message
and the credential/pandoc hint and call `reset_state` (whose own failure
would propagate, modelled by `none`). -/
def handle_convert (env : Env) (gemini_api_key : List Char)
    (uploaded_file : Option (List Char)) (st : SessionSt) :
    Option (SessionSt × List Msg) :=
  if gemini_api_key = [] then some (st, [Msg.warnKey])
  else
    match uploaded_file with
    | none => some (st, [Msg.warnFile])
    | some fname =>
      match run_pipeline env gemini_api_key fname with
      | Except.ok r => some (storeResult st r, [Msg.complete])
      | Except.error e =>
        match reset_state st with
        | some cleared => some (cleared, [Msg.errorShown e, Msg.hintShown])
        | none => none

/-- The file-uploader `on_change` callback: `reset_state`. -/
def handle_upload (st : SessionSt) : Option SessionSt := reset_state st

theorem setKey_nil (k : List Char) (v : StVal) : setKey [] k v = [(k, v)] := rfl

theorem setKey_cons (p : List Char × StVal) (rest : SessionSt) (k : List Char)
    (v : StVal) :
    setKey (p :: rest) k v =
      if p.1 = k then (k, v) :: rest else p :: setKey rest k v := rfl

theorem lookupSt_setKey_same (st : SessionSt) (k : List Char) (v : StVal) :
    lookupSt (setKey st k v) k = some v := by
  induction st with
  | nil =>
    rw [setKey_nil, lookupSt_cons]
    simp
  | cons p rest ih =>
    rw [setKey_cons]
    by_cases h : p.1 = k
    · rw [if_pos h, lookupSt_cons]
      simp
    · rw [if_neg h, lookupSt_cons, if_neg h]
      exact ih

theorem lookupSt_setKey_ne (st : SessionSt) (k k' : List Char) (v : StVal)
    (h : k' ≠ k) : lookupSt (setKey st k v) k' = lookupSt st k' := by
  induction st with
  | nil =>
    rw [setKey_nil, lookupSt_cons]
    rw [if_neg (fun he => h he.symm)]
  | cons p rest ih =>
    rw [setKey_cons]
    by_cases hp : p.1 = k
    · rw [if_pos hp, lookupSt_cons, lookupSt_cons]
      rw [if_neg (fun he => h he.symm), if_neg (by rw [hp]; exact fun he => h he.symm)]
    · rw [if_neg hp, lookupSt_cons, lookupSt_cons, ih]

theorem storeResult_lookups (st : SessionSt) (r : SessionResult) :
    lookupSt (storeResult st r) "conversion_done".data = some (StVal.flag true)
    ∧ lookupSt (storeResult st r) "preview_html".data = some (StVal.str r.preview_html)
    ∧ lookupSt (storeResult st r) "zip_buffer".data = some (StVal.archive r.zip_entries)
    ∧ lookupSt (storeResult st r) "download_filename".data
        = some (StVal.str r.download_filename) := by
  unfold storeResult
  refine ⟨?_, ?_, ?_, ?_⟩
  · rw [lookupSt_setKey_ne _ _ _ _ (by decide), lookupSt_setKey_ne _ _ _ _ (by decide),
      lookupSt_setKey_ne _ _ _ _ (by decide), lookupSt_setKey_same]
  · rw [lookupSt_setKey_ne _ _ _ _ (by decide), lookupSt_setKey_ne _ _ _ _ (by decide),
      lookupSt_setKey_same]
  · rw [lookupSt_setKey_ne _ _ _ _ (by decide), lookupSt_setKey_same]
  · rw [lookupSt_setKey_same]

/-- None of the four result keys is present. -/
def keysAbsent (st : SessionSt) : Prop := ∀ k ∈ RESULT_KEYS, lookupSt st k = none

/-- All four result keys are present. -/
def keysAllPresent (st : SessionSt) : Prop :=
  ∀ k ∈ RESULT_KEYS, (lookupSt st k).isSome = true

theorem keysAbsent_purge (st : SessionSt) : keysAbsent (purgeResult st) := by
  intro k hk
  apply lookupSt_purge_result_key
  unfold isResultKey
  rw [List.any_eq_true]
  exact ⟨k, hk, by simp⟩

theorem keysAllPresent_store (st : SessionSt) (r : SessionResult) :
    keysAllPresent (storeResult st r) := by
  intro k hk
  have h := storeResult_lookups st r
  simp only [RESULT_KEYS, List.mem_cons, List.not_mem_nil, or_false] at hk
  rcases hk with rfl | rfl | rfl | rfl
  · rw [h.1]; rfl
  · rw [h.2.1]; rfl
  · rw [h.2.2.1]; rfl
  · rw [h.2.2.2]; rfl

theorem run_pipeline_pandoc_error (env : Env) (key fname e : List Char)
    (hp : env.pandoc = Except.error e) :
    run_pipeline env key fname = Except.error e := by
  unfold run_pipeline
  rw [hp]

theorem run_pipeline_gemini_error (env : Env) (key fname markdown e : List Char)
    (hp : env.pandoc = Except.ok markdown)
    (hg : env.gemini (preprocess_markdown markdown) = Except.error e) :
    run_pipeline env key fname = Except.error e := by
  unfold run_pipeline convert_to_html_with_gemini
  rw [hp]
  dsimp only
  rw [hg]

theorem run_pipeline_ok_eq (env : Env) (key fname markdown raw : List Char)
    (hp : env.pandoc = Except.ok markdown)
    (hg : env.gemini (preprocess_markdown markdown) = Except.ok raw) :
    run_pipeline env key fname = Except.ok
      { preview_html := create_html_preview env.mime env.b64e (geminiPost raw)
          (Option.map (fun mv => mv.listing) env.media)
        zip_entries := build_zip (geminiPost raw)
          (Option.map (fun mv => mv.walk) env.media)
        download_filename := download_filename fname } := by
  unfold run_pipeline convert_to_html_with_gemini
  rw [hp]
  dsimp only
  rw [hg]

theorem run_pipeline_ok_shape (env : Env) (key fname : List Char)
    (r : SessionResult) (h : run_pipeline env key fname = Except.ok r) :
    ∃ raw,
      r = { preview_html := create_html_preview env.mime env.b64e (geminiPost raw)
              (Option.map (fun mv => mv.listing) env.media)
            zip_entries := build_zip (geminiPost raw)
              (Option.map (fun mv => mv.walk) env.media)
            download_filename := download_filename fname } := by
  cases hp : env.pandoc with
  | error e =>
    rw [run_pipeline_pandoc_error env key fname e hp] at h
    cases h
  | ok markdown =>
    cases hg : env.gemini (preprocess_markdown markdown) with
    | error e =>
      rw [run_pipeline_gemini_error env key fname markdown e hp hg] at h
      cases h
    | ok raw =>
      rw [run_pipeline_ok_eq env key fname markdown raw hp hg] at h
      exact ⟨raw, (Except.ok.inj h).symm⟩

theorem handle_convert_warn_key (env : Env) (upl : Option (List Char))
    (st : SessionSt) :
    handle_convert env [] upl st = some (st, [Msg.warnKey]) := by
  unfold handle_convert
  rw [if_pos rfl]

theorem handle_convert_warn_file (env : Env) (key : List Char) (st : SessionSt)
    (hk : key ≠ []) :
    handle_convert env key none st = some (st, [Msg.warnFile]) := by
  unfold handle_convert
  rw [if_neg hk]

theorem handle_convert_error (env : Env) (key fname e : List Char) (st : SessionSt)
    (hk : key ≠ []) (he : run_pipeline env key fname = Except.error e) :
    handle_convert env key (some fname) st
      = some (purgeResult st, [Msg.errorShown e, Msg.hintShown]) := by
  unfold handle_convert
  rw [if_neg hk]
  dsimp only
  rw [he, reset_state_eq st]

theorem handle_convert_ok (env : Env) (key fname : List Char) (r : SessionResult)
    (st : SessionSt) (hk : key ≠ [])
    (hr : run_pipeline env key fname = Except.ok r) :
    handle_convert env key (some fname) st
      = some (storeResult st r, [Msg.complete]) := by
  unfold handle_convert
  rw [if_neg hk]
  dsimp only
  rw [hr]

/-- C2: after an upload event all four result keys are absent; after a failed
run all four are absent; after a successful run all four are present, with
the download filename derived from the uploaded file name used in that run —
the four keys are never partially present, so at most one complete Session
Result exists and each event invalidates the prior one atomically. -/
theorem session_result_all_or_none (env : Env) (key fname : List Char)
    (st : SessionSt) (hkey : key ≠ []) :
    (∀ st', handle_upload st = some st' → keysAbsent st')
    ∧ (∀ e, run_pipeline env key fname = Except.error e →
        handle_convert env key (some fname) st
          = some (purgeResult st, [Msg.errorShown e, Msg.hintShown])
        ∧ keysAbsent (purgeResult st))
    ∧ (∀ r, run_pipeline env key fname = Except.ok r →
        handle_convert env key (some fname) st
          = some (storeResult st r, [Msg.complete])
        ∧ keysAllPresent (storeResult st r)
        ∧ lookupSt (storeResult st r) "download_filename".data
            = some (StVal.str (download_filename fname))) := by
  refine ⟨?_, ?_, ?_⟩
  · intro st' h
    unfold handle_upload at h
    rw [reset_state_eq st] at h
    rw [← Option.some.inj h]
    exact keysAbsent_purge st
  · intro e he
    exact ⟨handle_convert_error env key fname e st hkey he, keysAbsent_purge st⟩
  · intro r hr
    refine ⟨handle_convert_ok env key fname r st hkey hr, keysAllPresent_store st r, ?_⟩
    obtain ⟨raw, hshape⟩ := run_pipeline_ok_shape env key fname r hr
    rw [(storeResult_lookups st r).2.2.2, hshape]

/-- C6: the pipeline runs on a click iff both a credential and an uploaded
file are present — otherwise only a warning is emitted and the session state
is returned unchanged; when any pipeline step fails, the error message and
the credential/pandoc hint are surfaced, every result field is cleared and
every other entry kept — no partial result is exposed; when the pipeline
succeeds the result is stored. -/
theorem convert_gating_and_errors (env : Env) (key fname : List Char)
    (upl : Option (List Char)) (st : SessionSt) :
    (key = [] → handle_convert env key upl st = some (st, [Msg.warnKey]))
    ∧ (key ≠ [] → handle_convert env key none st = some (st, [Msg.warnFile]))
    ∧ (∀ e, key ≠ [] → run_pipeline env key fname = Except.error e →
        handle_convert env key (some fname) st
          = some (purgeResult st, [Msg.errorShown e, Msg.hintShown])
        ∧ keysAbsent (purgeResult st)
        ∧ (∀ k, isResultKey k = false →
            lookupSt (purgeResult st) k = lookupSt st k))
    ∧ (∀ r, key ≠ [] → run_pipeline env key fname = Except.ok r →
        handle_convert env key (some fname) st
          = some (storeResult st r, [Msg.complete])) := by
  refine ⟨?_, ?_, ?_, ?_⟩
  · intro h
    subst h
    exact handle_convert_warn_key env upl st
  · intro h
    exact handle_convert_warn_file env key st h
  · intro e hk he
    exact ⟨handle_convert_error env key fname e st hk he, keysAbsent_purge st,
      fun k hkk => lookupSt_purge_other_key st k hkk⟩
  · intro r hk hr
    exact handle_convert_ok env key fname r st hk hr

/-- C5: on a successful run with N walked media files the archive has exactly
N+1 entries: `course.html` first, holding the external-reference HTML variant
(the post-processed model output, from which the inlined preview variant is
derived separately), and N entries under `imgs/`; the suggested download
filename is the uploaded basename without extension plus `_webpage.zip`. -/
theorem packager_entries (env : Env) (key fname : List Char) (mv : MediaView)
    (r : SessionResult) (hm : env.media = some mv)
    (hr : run_pipeline env key fname = Except.ok r) :
    r.zip_entries.length = mv.walk.length + 1
    ∧ (∃ final, r.zip_entries.head? = some ("course.html".data, ZipContent.text final)
        ∧ r.preview_html = create_html_preview env.mime env.b64e final (some mv.listing))
    ∧ (∀ p ∈ r.zip_entries.tail, "imgs/".data.isPrefixOf p.1 = true)
    ∧ r.download_filename = splitextRoot fname ++ "_webpage.zip".data := by
  obtain ⟨raw, rfl⟩ := run_pipeline_ok_shape env key fname r hr
  dsimp only
  simp only [hm, Option.map_some']
  refine ⟨?_, ⟨geminiPost raw, rfl, rfl⟩, ?_, rfl⟩
  · unfold build_zip
    rw [List.length_cons, List.length_map]
  · intro p hp
    unfold build_zip at hp
    rw [List.tail_cons] at hp
    obtain ⟨e, _, rfl⟩ := List.mem_map.mp hp
    exact isPrefixOf_append_self "imgs/".data e.name

theorem course_ne_imgs (n : List Char) : "course.html".data ≠ "imgs/".data ++ n := by
  intro h
  have h1 : ("course.html".data).head? = ("imgs/".data ++ n).head? := by rw [h]
  have h2 : some 'c' = some 'i' := h1
  exact absurd h2 (by decide)

/-- C9: the packager flattens the media directory: every walked file, at any
nesting depth, is archived under `imgs/<basename>` with its relative
directory components discarded, and the number of archive entries named
`imgs/<n>` equals the number of walked files with basename `n` — so two
same-named files from different subdirectories yield two identically named
entries. -/
theorem packager_flattens (html : List Char) (entries : List WalkEntry) :
    (∀ e ∈ entries, ("imgs/".data ++ e.name, ZipContent.bin e.bytes)
        ∈ build_zip html (some entries))
    ∧ (∀ n, ((build_zip html (some entries)).filter
          (fun p => decide (p.1 = "imgs/".data ++ n))).length
        = (entries.filter (fun e => decide (e.name = n))).length) := by
  constructor
  · intro e he
    unfold build_zip
    exact List.mem_cons_of_mem _
      (List.mem_map.mpr ⟨e, he, rfl⟩)
  · intro n
    unfold build_zip
    rw [List.filter_cons]
    rw [if_neg (by simp [course_ne_imgs n])]
    rw [List.filter_map, List.length_map]
    congr 1
    apply List.filter_congr
    intro e _
    simp only [Function.comp]
    by_cases h : e.name = n
    · subst h
      simp
    · rw [decide_eq_false h, decide_eq_false (fun hc => h (List.append_cancel_left hc))]

/-- A concrete failing environment for witnesses: pandoc raises. -/
def wEnvFail : Env :=
  { pandoc := Except.error "pandoc missing".data
    media := none
    gemini := fun _ => Except.ok "<html></html>".data
    mime := wMime
    b64e := wB64 }

/-- A concrete media view for witnesses. -/
def wMv : MediaView :=
  { listing := [⟨"a.png".data, [1, 2]⟩]
    walk := [⟨[], "a.png".data, [1, 2]⟩] }

/-- A concrete successful environment for witnesses. -/
def wEnv : Env :=
  { pandoc := Except.ok "Note: hi\nbody".data
    media := some wMv
    gemini := fun _ => Except.ok "<html>ok</html>".data
    mime := wMime
    b64e := wB64 }

/-- The Session Result computed by `run_pipeline wEnv "k" "notes.docx"`. -/
def wRes : SessionResult :=
  { preview_html := "<html>ok</html>".data
    zip_entries := [("course.html".data, ZipContent.text "<html>ok</html>".data),
                    ("imgs/a.png".data, ZipContent.bin [1, 2])]
    download_filename := "notes_webpage.zip".data }

/-- Witness for C2: a concrete failed run leaves all four keys absent, and a
concrete successful run stores all four with the derived filename. -/
theorem session_result_all_or_none_witness :
    (handle_convert wEnvFail "k".data (some "n.docx".data) wSt
        = some (purgeResult wSt, [Msg.errorShown "pandoc missing".data, Msg.hintShown])
      ∧ keysAbsent (purgeResult wSt))
    ∧ (handle_convert wEnv "k".data (some "notes.docx".data) []
        = some (storeResult [] wRes, [Msg.complete])
      ∧ keysAllPresent (storeResult [] wRes)
      ∧ lookupSt (storeResult [] wRes) "download_filename".data
          = some (StVal.str (download_filename "notes.docx".data))) :=
  ⟨(session_result_all_or_none wEnvFail "k".data "n.docx".data wSt (by decide)).2.1
      "pandoc missing".data rfl,
   (session_result_all_or_none wEnv "k".data "notes.docx".data [] (by decide)).2.2
      wRes rfl⟩

/-- Witness for C6 at concrete environments: missing credential, missing
file, a pandoc failure, and a successful run. -/
theorem convert_gating_and_errors_witness :
    handle_convert wEnvFail [] (some "n.docx".data) wSt = some (wSt, [Msg.warnKey])
    ∧ handle_convert wEnvFail "k".data none wSt = some (wSt, [Msg.warnFile])
    ∧ (handle_convert wEnvFail "k".data (some "n.docx".data) wSt
        = some (purgeResult wSt, [Msg.errorShown "pandoc missing".data, Msg.hintShown])
      ∧ keysAbsent (purgeResult wSt)
      ∧ (∀ k, isResultKey k = false → lookupSt (purgeResult wSt) k = lookupSt wSt k))
    ∧ handle_convert wEnv "k".data (some "notes.docx".data) []
        = some (storeResult [] wRes, [Msg.complete]) :=
  ⟨(convert_gating_and_errors wEnvFail [] "n.docx".data (some "n.docx".data) wSt).1 rfl,
   (convert_gating_and_errors wEnvFail "k".data "n.docx".data none wSt).2.1 (by decide),
   (convert_gating_and_errors wEnvFail "k".data "n.docx".data (some "n.docx".data) wSt).2.2.1
      "pandoc missing".data (by decide) rfl,
   (convert_gating_and_errors wEnv "k".data "notes.docx".data (some "notes.docx".data) []).2.2.2
      wRes (by decide) rfl⟩

/-- Witness for C5 at a concrete successful run with one media file. -/
theorem packager_entries_witness :
    wRes.zip_entries.length = wMv.walk.length + 1
    ∧ (∃ final, wRes.zip_entries.head? = some ("course.html".data, ZipContent.text final)
        ∧ wRes.preview_html = create_html_preview wEnv.mime wEnv.b64e final (some wMv.listing))
    ∧ (∀ p ∈ wRes.zip_entries.tail, "imgs/".data.isPrefixOf p.1 = true)
    ∧ wRes.download_filename = splitextRoot "notes.docx".data ++ "_webpage.zip".data :=
  packager_entries wEnv "k".data "notes.docx".data wMv wRes rfl rfl

/-- Concrete walk entries for the C9 witness: two files with the same
basename in different subdirectories. -/
def wEntries : List WalkEntry :=
  [⟨["d1".data], "a.png".data, [1]⟩, ⟨["d2".data], "a.png".data, [2]⟩]

/-- Witness for C9: both same-named files land in the archive under the same
flattened name, and the archive holds two entries with that name. -/
theorem packager_flattens_witness :
    ("imgs/a.png".data, ZipContent.bin [1]) ∈ build_zip "<h1>t</h1>".data (some wEntries)
    ∧ ((build_zip "<h1>t</h1>".data (some wEntries)).filter
        (fun p => decide (p.1 = "imgs/".data ++ "a.png".data))).length = 2 := by
  constructor
  · exact (packager_flattens "<h1>t</h1>".data wEntries).1
      ⟨["d1".data], "a.png".data, [1]⟩ (by decide)
  · rw [(packager_flattens "<h1>t</h1>".data wEntries).2 "a.png".data]
    decide

/-- Witness for C1 at concrete lines: a keyword line is wrapped (hence
altered) and the documented example line is altered. -/
theorem preprocess_markdown_line_behavior_witness :
    processLine "Remark: x".data = wrapRemark "Remark: x".data
    ∧ processLine "  note: see appendix".data ≠ "  note: see appendix".data := by
  have h := preprocess_markdown_line_behavior "  note: see appendix".data
  exact ⟨h.2.2.2.1 "Remark: x".data (by decide),
    (h.2.2.1 "  note: see appendix".data).mpr (by decide)⟩

end WordConverter
